import Mathlib

/-!
Verification of the pattern-specification normalizer from
`eden/scm/lib/pathmatcher/src/pattern.rs`.

The Rust code is shallowly embedded: `PatternKind`, `Pattern`, the kind
predicates, `split_pattern`, `build_patterns` and `normalize_patterns` are
translated directly from the source.  Helper operations that live outside the
given sources (curly-bracket expansion, path normalization, root-relative
resolution, glob escaping, file reading) are modelled from the spec, each
marked as such in its doc comment.  Strings are manipulated through their
underlying character lists so that every definition evaluates by kernel
reduction.
-/

namespace Pathmatcher

/-- The closed set of ten pattern kinds, translated from the Rust enum
`PatternKind` in `pattern.rs`. -/
inductive PatternKind where
  | RE
  | Glob
  | Path
  | RelGlob
  | RelPath
  | RelRE
  | ListFile
  | ListFile0
  | Set
  | RootFilesIn
deriving DecidableEq, Repr

/-- Errors raised by the normalizer, translated from the pathmatcher error
type as used in `pattern.rs` (the wrapped I/O error is represented by its
offending path). -/
inductive Error where
  | UnsupportedPatternKind : String → Error
  | PathOutsideRoot : String → String → Error
  | NonUtf8 : String → Error
  | IOError : String → Error
deriving DecidableEq, Repr

/-- Canonical lowercase name of a kind, translated from `PatternKind::name`. -/
def PatternKind.name : PatternKind → String
  | PatternKind.RE => "re"
  | PatternKind.Glob => "glob"
  | PatternKind.Path => "path"
  | PatternKind.RelGlob => "relglob"
  | PatternKind.RelPath => "relpath"
  | PatternKind.RelRE => "relre"
  | PatternKind.ListFile => "listfile"
  | PatternKind.ListFile0 => "listfile0"
  | PatternKind.Set => "set"
  | PatternKind.RootFilesIn => "rootfilesin"

/-- Translated from `PatternKind::is_glob`. -/
def PatternKind.is_glob : PatternKind → Bool
  | PatternKind.Glob | PatternKind.RelGlob => true
  | _ => false

/-- Translated from `PatternKind::is_path`. -/
def PatternKind.is_path : PatternKind → Bool
  | PatternKind.Path | PatternKind.RelPath | PatternKind.RootFilesIn => true
  | _ => false

/-- Translated from `PatternKind::is_regex`. -/
def PatternKind.is_regex : PatternKind → Bool
  | PatternKind.RE | PatternKind.RelRE => true
  | _ => false

/-- Translated from `PatternKind::is_recursive`. -/
def PatternKind.is_recursive : PatternKind → Bool
  | PatternKind.Path | PatternKind.RelPath => true
  | _ => false

/-- Translated from `PatternKind::is_cwd_relative`. -/
def PatternKind.is_cwd_relative : PatternKind → Bool
  | PatternKind.RelPath | PatternKind.Glob => true
  | _ => false

/-- Translated from `PatternKind::is_free`. -/
def PatternKind.is_free : PatternKind → Bool
  | PatternKind.RelGlob | PatternKind.RelRE => true
  | _ => false

/-- Translated from the `FromStr` implementation for `PatternKind`. -/
def PatternKind.from_str (s : String) : Except Error PatternKind :=
  match s with
  | "re" => Except.ok PatternKind.RE
  | "glob" => Except.ok PatternKind.Glob
  | "path" => Except.ok PatternKind.Path
  | "relglob" => Except.ok PatternKind.RelGlob
  | "relpath" => Except.ok PatternKind.RelPath
  | "relre" => Except.ok PatternKind.RelRE
  | "listfile" => Except.ok PatternKind.ListFile
  | "listfile0" => Except.ok PatternKind.ListFile0
  | "set" => Except.ok PatternKind.Set
  | "rootfilesin" => Except.ok PatternKind.RootFilesIn
  | _ => Except.error (Error.UnsupportedPatternKind s)

/-- Translated from the Rust struct `Pattern`: a kind, the normalized text and
an optional provenance (the listfile that produced the pattern). -/
structure Pattern where
  kind : PatternKind
  pattern : String
  source : Option String
deriving DecidableEq, Repr

/-- Translated from `Pattern::new`: source starts out as `None`. -/
def Pattern.new (kind : PatternKind) (pattern : String) : Pattern :=
  ⟨kind, pattern, none⟩

/-- Translated from `Pattern::with_source`: unconditionally overwrites the
source field. -/
def Pattern.with_source (p : Pattern) (source : String) : Pattern :=
  ⟨p.kind, p.pattern, some source⟩

/-- Splits a character list at every occurrence of `sep`; the list of groups
is never empty.  This mirrors Rust `str::split` / `str::split_once`
behaviour on the underlying characters. -/
def splitOnChar (sep : Char) : List Char → List (List Char)
  | [] => [[]]
  | c :: cs =>
    if c = sep then
      [] :: splitOnChar sep cs
    else
      match splitOnChar sep cs with
      | [] => [[c]]
      | g :: gs => (c :: g) :: gs

/-- Interleaves `sep` between the groups, the inverse of `splitOnChar`. -/
def joinWith (sep : List Char) : List (List Char) → List Char
  | [] => []
  | [g] => g
  | g :: gs => g ++ sep ++ joinWith sep gs

/-- Translated from `split_pattern`: split at the first colon; if the text
before it names a kind, return that kind and the remainder, otherwise return
the default kind and the whole string unchanged. -/
def split_pattern (pattern : String) (default_kind : PatternKind) :
    PatternKind × String :=
  match splitOnChar ':' pattern.data with
  | [] => (default_kind, pattern)
  | [_] => (default_kind, pattern)
  | k :: rest =>
    match PatternKind.from_str (String.mk k) with
    | Except.ok kind => (kind, String.mk (joinWith [':'] rest))
    | Except.error _ => (default_kind, pattern)

/-- Translated from `Pattern::from_str`: kind and text come from
`split_pattern`, source is `None`. -/
def Pattern.from_str (pattern : String) (default_kind : PatternKind) : Pattern :=
  let kp := split_pattern pattern default_kind
  ⟨kp.1, kp.2, none⟩

/-- Translated from `build_patterns`: one `Pattern` per input string, in input
order, via `Pattern::from_str`. -/
def build_patterns (patterns : List String) (default_kind : PatternKind) :
    List Pattern :=
  patterns.map (fun s => Pattern.from_str s default_kind)

/-- Scans for the first unescaped opening curly bracket; returns the text
before it and the text after it.  A backslash escapes the following
character. -/
def findOpen : List Char → Option (List Char × List Char)
  | [] => none
  | '\\' :: c :: rest =>
    match findOpen rest with
    | none => none
    | some (pre, post) => some ('\\' :: c :: pre, post)
  | '\x7b' :: rest => some ([], rest)
  | c :: rest =>
    match findOpen rest with
    | none => none
    | some (pre, post) => some (c :: pre, post)

/-- Scans the text after an opening curly bracket, collecting the comma
separated alternatives of the group (nested groups keep their commas) and the
text after the matching closing bracket.  Returns `none` when the group is
unbalanced. -/
def splitAlts (cs : List Char) (depth : Nat) (cur : List Char)
    (alts : List (List Char)) : Option (List (List Char) × List Char) :=
  match cs, depth with
  | [], _ => none
  | '\\' :: c :: rest, d => splitAlts rest d (cur ++ ['\\', c]) alts
  | '\x7b' :: rest, d => splitAlts rest (d + 1) (cur ++ ['\x7b']) alts
  | '\x7d' :: rest, 0 => some (alts ++ [cur], rest)
  | '\x7d' :: rest, d + 1 => splitAlts rest d (cur ++ ['\x7d']) alts
  | ',' :: rest, 0 => splitAlts rest 0 [] (alts ++ [cur])
  | c :: rest, d => splitAlts rest d (cur ++ [c]) alts

/-- Fuelled worker for curly-bracket expansion: rewrite the first group and
recurse on each alternative. -/
def expandCurlyAux : Nat → List Char → List (List Char)
  | 0, cs => [cs]
  | fuel + 1, cs =>
    match findOpen cs with
    | none => [cs]
    | some (pre, post) =>
      match splitAlts post 0 [] [] with
      | none => [cs]
      | some (alts, suf) =>
        alts.flatMap (fun alt => expandCurlyAux fuel (pre ++ alt ++ suf))

/-- Modelled from the spec: `expand_curly_brackets` (defined outside the given
sources) expands curly-bracket groups combinatorially into multiple candidate
strings, e.g. a group with alternatives `b` and `c` yields one candidate per
alternative; a pattern without groups stays a singleton. -/
def expand_curly_brackets (pat : String) : List String :=
  (expandCurlyAux pat.data.length pat.data).map String.mk

/-- Collapses empty, dot and dot-dot components of a path, keeping unresolved
leading dot-dots for relative paths and discarding them for absolute ones. -/
def normComps (isAbs : Bool) (acc : List (List Char)) :
    List (List Char) → List (List Char)
  | [] => acc.reverse
  | c :: cs =>
    if c = [] ∨ c = ['.'] then
      normComps isAbs acc cs
    else if c = ['.', '.'] then
      match acc with
      | top :: rest =>
        if top = ['.', '.'] then normComps isAbs (c :: acc) cs
        else normComps isAbs rest cs
      | [] => if isAbs then normComps isAbs [] cs else normComps isAbs [c] cs
    else
      normComps isAbs (c :: acc) cs

/-- Modelled from the spec: `util::path::normalize` (defined outside the given
sources) removes dot, dot-dot and redundant separators; an empty relative
result normalizes to `.`. -/
def pathNormalize (p : String) : String :=
  match p.data with
  | '/' :: rest =>
    String.mk ('/' :: joinWith ['/'] (normComps true [] (splitOnChar '/' rest)))
  | cs =>
    match normComps false [] (splitOnChar '/' cs) with
    | [] => "."
    | comps => String.mk (joinWith ['/'] comps)

/-- Translated from `normalize_path_pattern` in `pattern.rs`; on non-Windows
hosts it is exactly the path normalization (the separator substitution is a
Windows-only branch). -/
def normalize_path_pattern (pattern : String) : String :=
  pathNormalize pattern

/-- Modelled from the spec: `util::path::root_relative_path` (defined outside
the given sources) resolves a candidate against the cwd and reports either the
path relative to the repository root or `none` when the candidate escapes the
root. -/
def rootRelativePath (root cwd p : String) : Option String :=
  let absolute :=
    match p.data with
    | '/' :: _ => p
    | _ => if cwd = "" then p else String.mk (cwd.data ++ '/' :: p.data)
  if root = "" then some (pathNormalize absolute)
  else
    let resolved := (pathNormalize absolute).data
    let rootN := (pathNormalize root).data
    if resolved = rootN then some ""
    else if (rootN ++ ['/']).isPrefixOf resolved then
      some (String.mk (resolved.drop (rootN.length + 1)))
    else none

/-- Modelled from the spec: `plain_to_glob` (defined outside the given
sources) escapes every glob metacharacter with a backslash so a literal path
can be used as a glob. -/
def plain_to_glob (s : String) : String :=
  String.mk (s.data.foldr
    (fun c acc =>
      if c = '*' ∨ c = '?' ∨ c = '[' ∨ c = ']' ∨ c = '\x7b' ∨ c = '\x7d' then
        '\\' :: c :: acc
      else c :: acc)
    [])

/-- Modelled from the spec: `normalize_glob` (defined outside the given
sources) converts the permissive user-facing glob dialect into the matching
engine's stricter dialect; the spec leaves the exact rules to the external
engine's grammar, so it is modelled as the identity rewrite. -/
def normalize_glob (s : String) : String := s

/-- Modelled from the spec: `make_glob_recursive` (defined outside the given
sources) appends a recursive-match suffix, or yields a bare recursive
wildcard for the empty pattern. -/
def make_glob_recursive (s : String) : String :=
  if s = "" then "**" else s ++ "/**"

/-- Modelled from Rust `str::lines` semantics used for listfile contents:
newline-delimited, tolerating a carriage return before the newline, with no
empty trailing line. -/
def linesOf (s : String) : List String :=
  let ls := splitOnChar '\n' s.data
  let ls :=
    match ls.getLast? with
    | some [] => ls.dropLast
    | _ => ls
  ls.map (fun l =>
    match l.getLast? with
    | some '\r' => String.mk l.dropLast
    | _ => String.mk l)

/-- Modelled from Rust `str::split` on the null byte, used for listfile0
contents. -/
def splitNull (s : String) : List String :=
  (splitOnChar '\x00' s.data).map String.mk

/-- Modelled from the spec: `util::file::read_to_string` (defined outside the
given sources) reads a whole file as text; the filesystem is abstracted as a
partial map from paths to contents, an absent path surfaces as an I/O
error. -/
def read_to_string (fs : String → Option String) (path : String) :
    Except Error String :=
  match fs path with
  | some contents => Except.ok contents
  | none => Except.error (Error.IOError path)

/-- Translated from the per-candidate stage sequence in `normalize_patterns`
(`pattern.rs`): cwd-relativization, path cleanup, glob escaping, glob
tightening, recursive suffixing, forced recursive suffixing, unrooting of
free globs, the RootFilesIn child-only rewrite, and regex anchoring, in the
source's order.  Only the cwd-relativization stage can fail. -/
def normalizeCandidate (kind : PatternKind) (p : String) (root cwd : String)
    (force_recursive_glob : Bool) : Except Error String :=
  let step1 : Except Error String :=
    if kind.is_cwd_relative then
      match rootRelativePath root cwd p with
      | some q => Except.ok q
      | none => Except.error (Error.PathOutsideRoot p root)
    else Except.ok p
  match step1 with
  | Except.error e => Except.error e
  | Except.ok pat =>
    let pat :=
      if kind.is_glob || kind.is_path then
        let q := normalize_path_pattern pat
        if q = "." then "" else q
      else pat
    let pat := if kind.is_path then plain_to_glob pat else pat
    let pat := if kind.is_glob then normalize_glob pat else pat
    let pat := if kind.is_recursive then make_glob_recursive pat else pat
    let pat :=
      if force_recursive_glob && kind.is_glob then make_glob_recursive pat
      else pat
    let pat :=
      if kind.is_glob && kind.is_free then
        if pat = "" then pat else "**/" ++ pat
      else pat
    let pat :=
      if kind = PatternKind.RootFilesIn then
        if pat = "" then "*" else pat ++ "/*"
      else pat
    let pat :=
      if kind.is_regex then
        match pat.data with
        | c :: rest =>
          if c = '^' then String.mk rest
          else if kind.is_free then ".*?" ++ pat else pat
        | [] => if kind.is_free then ".*?" ++ pat else pat
      else pat
    Except.ok pat

/-- Error-propagating concatenation map: the `for` loops of
`normalize_patterns` push results in order and abort the whole call on the
first error. -/
def exceptConcatMap {α : Type} (f : α → Except Error (List Pattern)) :
    List α → Except Error (List Pattern)
  | [] => Except.ok []
  | x :: xs =>
    match f x with
    | Except.error e => Except.error e
    | Except.ok ps =>
      match exceptConcatMap f xs with
      | Except.error e => Except.error e
      | Except.ok qs => Except.ok (ps ++ qs)

/-- Translated from the tail of the candidate loop in `normalize_patterns`:
emit a terminal pattern for glob, path and regex kinds; for listfile kinds
read the file, split its contents, recurse via the supplied continuation and
stamp every resulting pattern with the listfile's path as source; every other
kind is unsupported. -/
def processCandidate (recurse : List String → Except Error (List Pattern))
    (fs : String → Option String) (root cwd : String)
    (kind : PatternKind) (p : String) (force_recursive_glob : Bool) :
    Except Error (List Pattern) :=
  match normalizeCandidate kind p root cwd force_recursive_glob with
  | Except.error e => Except.error e
  | Except.ok pat =>
    if kind.is_glob || kind.is_path || kind.is_regex then
      Except.ok [Pattern.new kind pat]
    else if kind = PatternKind.ListFile ∨ kind = PatternKind.ListFile0 then
      match read_to_string fs pat with
      | Except.error e => Except.error e
      | Except.ok contents =>
        let subs :=
          if kind = PatternKind.ListFile then linesOf contents
          else splitNull contents
        match recurse subs with
        | Except.error e => Except.error e
        | Except.ok ps => Except.ok (ps.map (fun q => q.with_source pat))
    else Except.error (Error.UnsupportedPatternKind kind.name)

/-- Translated from `normalize_patterns` in `pattern.rs`, with the filesystem
abstracted as a map from paths to contents and the unbounded listfile
recursion made total by a fuel parameter (the Rust recursion has no depth
cap; fuel is only consumed when a listfile re-enters the pipeline, and
exhaustion surfaces as an I/O error).  Each input is split into kind and
text, glob kinds are curly-expanded, every candidate runs the stage pipeline
and is then emitted or recursively expanded; listfile recursion uses the same
default kind and root but `force_recursive_glob = false`. -/
def normalize_patterns (fs : String → Option String) (root cwd : String)
    (default_kind : PatternKind) :
    Nat → List String → Bool → Except Error (List Pattern)
  | 0, _, _ => Except.error (Error.IOError "listfile recursion limit")
  | fuel + 1, patterns, force_recursive_glob =>
    exceptConcatMap
      (fun pattern =>
        let kp := split_pattern pattern default_kind
        let pats :=
          if kp.1.is_glob then expand_curly_brackets kp.2 else [kp.2]
        exceptConcatMap
          (fun p =>
            processCandidate
              (fun subs =>
                normalize_patterns fs root cwd default_kind fuel subs false)
              fs root cwd kp.1 p force_recursive_glob)
          pats)
      patterns

attribute [simp] PatternKind.is_glob PatternKind.is_path PatternKind.is_regex
attribute [simp] PatternKind.is_recursive PatternKind.is_cwd_relative
attribute [simp] PatternKind.is_free PatternKind.name normalize_glob

instance {ε α : Type} [DecidableEq ε] [DecidableEq α] :
    DecidableEq (Except ε α)
  | Except.ok a, Except.ok b =>
    if h : a = b then Decidable.isTrue (h ▸ rfl)
    else Decidable.isFalse (fun hc => h (Except.ok.inj hc))
  | Except.ok _, Except.error _ =>
    Decidable.isFalse (fun hc => Except.noConfusion hc)
  | Except.error _, Except.ok _ =>
    Decidable.isFalse (fun hc => Except.noConfusion hc)
  | Except.error a, Except.error b =>
    if h : a = b then Decidable.isTrue (h ▸ rfl)
    else Decidable.isFalse (fun hc => h (Except.error.inj hc))

/-! ## General lemmas about the embedding -/

theorem mk_data (s : String) : String.mk s.data = s := rfl

theorem splitOnChar_ne_nil (sep : Char) (l : List Char) :
    splitOnChar sep l ≠ [] := by
  induction l with
  | nil => simp [splitOnChar]
  | cons c cs ih =>
    simp only [splitOnChar]
    split
    · simp
    · cases h : splitOnChar sep cs with
      | nil => exact absurd h ih
      | cons g gs => simp [h]

theorem splitOnChar_not_mem {sep : Char} {l : List Char} (h : sep ∉ l) :
    splitOnChar sep l = [l] := by
  induction l with
  | nil => rfl
  | cons c cs ih =>
    have hc : ¬ c = sep := fun hc => h (hc ▸ List.mem_cons_self c cs)
    have hcs : sep ∉ cs := fun hm => h (List.mem_cons_of_mem c hm)
    simp only [splitOnChar, if_neg hc, ih hcs]

theorem splitOnChar_append {sep : Char} {a : List Char} (b : List Char)
    (h : sep ∉ a) :
    splitOnChar sep (a ++ sep :: b) = a :: splitOnChar sep b := by
  induction a with
  | nil => simp [splitOnChar]
  | cons c a' ih =>
    have hc : ¬ c = sep := fun hc => h (hc ▸ List.mem_cons_self c a')
    have ha : sep ∉ a' := fun hm => h (List.mem_cons_of_mem c hm)
    simp only [List.cons_append, splitOnChar, if_neg hc]
    rw [List.append_eq, ih ha]

theorem joinWith_splitOnChar (sep : Char) (l : List Char) :
    joinWith [sep] (splitOnChar sep l) = l := by
  induction l with
  | nil => rfl
  | cons c cs ih =>
    simp only [splitOnChar]
    by_cases hc : c = sep
    · subst hc
      simp only [if_pos rfl]
      cases h : splitOnChar c cs with
      | nil => exact absurd h (splitOnChar_ne_nil c cs)
      | cons g gs =>
        rw [h] at ih
        simp only [joinWith]
        cases gs with
        | nil => simp only [joinWith] at ih ⊢; simp [ih]
        | cons g' gs' => simpa [joinWith] using ih
    · simp only [if_neg hc]
      cases h : splitOnChar sep cs with
      | nil => exact absurd h (splitOnChar_ne_nil sep cs)
      | cons g gs =>
        rw [h] at ih
        cases gs with
        | nil => simp only [joinWith] at ih ⊢; simp [ih]
        | cons g' gs' =>
          simp only [joinWith] at ih ⊢
          simpa using ih

theorem from_str_name (k : PatternKind) :
    PatternKind.from_str k.name = Except.ok k := by
  cases k <;> rfl

theorem with_source_kind (p : Pattern) (s : String) :
    (p.with_source s).kind = p.kind := rfl

/-! ## Claims -/

/-- C8: for every one of the 10 `PatternKind` variants `k`,
`PatternKind.from_str (k.name) = Ok k`, and the 10 canonical names are
pairwise distinct. -/
theorem patternkind_name_round_trip :
    (∀ k : PatternKind, PatternKind.from_str k.name = Except.ok k) ∧
    ([PatternKind.RE, PatternKind.Glob, PatternKind.Path, PatternKind.RelGlob,
      PatternKind.RelPath, PatternKind.RelRE, PatternKind.ListFile,
      PatternKind.ListFile0, PatternKind.Set,
      PatternKind.RootFilesIn].map PatternKind.name).Nodup :=
  ⟨from_str_name, by decide⟩

/-- C9: `build_patterns` is total and returns exactly one `Pattern` per input
string, in input order, whose kind and text come from `split_pattern` alone
and whose source is `None`; `set:`, `listfile:` and `listfile0:` prefixed
strings are accepted and no normalization stage is applied to the text. -/
theorem build_patterns_total :
    (∀ (patterns : List String) (default_kind : PatternKind),
      build_patterns patterns default_kind =
        patterns.map (fun s =>
          Pattern.mk (split_pattern s default_kind).1
            (split_pattern s default_kind).2 none)) ∧
    (∀ (patterns : List String) (default_kind : PatternKind),
      (build_patterns patterns default_kind).length = patterns.length) ∧
    build_patterns ["set:added()", "listfile:f", "listfile0:g", "re:x", "a:b"]
        PatternKind.Glob =
      [⟨PatternKind.Set, "added()", none⟩, ⟨PatternKind.ListFile, "f", none⟩,
       ⟨PatternKind.ListFile0, "g", none⟩, ⟨PatternKind.RE, "x", none⟩,
       ⟨PatternKind.Glob, "a:b", none⟩] :=
  ⟨fun _ _ => rfl, fun patterns _ => List.length_map patterns _, by decide⟩

/-- C2: for every input string and default kind, `split_pattern` returns the
named kind and the remainder after the first colon when the text before the
first colon is one of the 10 case-sensitive kind names, and otherwise (no
colon, or unrecognized prefix) returns the default kind with the full
original string unchanged, without error; in particular
`split_pattern "re:a.*py" Glob = (RE, "a.*py")` and
`split_pattern "badkind:a.*py" Glob = (Glob, "badkind:a.*py")`. -/
theorem split_pattern_spec :
    (∀ (s : String) (kd : PatternKind) (rest : String) (k : PatternKind),
      s.data = kd.name.data ++ ':' :: rest.data →
      split_pattern s k = (kd, rest)) ∧
    (∀ (s : String) (k : PatternKind), ':' ∉ s.data →
      split_pattern s k = (k, s)) ∧
    (∀ (s pre rest : String) (k : PatternKind),
      s.data = pre.data ++ ':' :: rest.data → ':' ∉ pre.data →
      (∀ kd : PatternKind, PatternKind.from_str pre ≠ Except.ok kd) →
      split_pattern s k = (k, s)) ∧
    split_pattern "re:a.*py" PatternKind.Glob = (PatternKind.RE, "a.*py") ∧
    split_pattern "badkind:a.*py" PatternKind.Glob =
      (PatternKind.Glob, "badkind:a.*py") := by
  refine ⟨?_, ?_, ?_, by decide, by decide⟩
  · intro s kd rest k hs
    have hname : (':' : Char) ∉ kd.name.data := by cases kd <;> decide
    simp only [split_pattern, hs]
    rw [splitOnChar_append _ hname]
    cases h2 : splitOnChar ':' rest.data with
    | nil => exact absurd h2 (splitOnChar_ne_nil _ _)
    | cons g gs =>
      simp only [mk_data, from_str_name]
      rw [← h2, joinWith_splitOnChar, mk_data]
  · intro s k hs
    simp only [split_pattern, splitOnChar_not_mem hs]
  · intro s pre rest k hs hpre hbad
    simp only [split_pattern, hs]
    rw [splitOnChar_append _ hpre]
    cases h2 : splitOnChar ':' rest.data with
    | nil => exact absurd h2 (splitOnChar_ne_nil _ _)
    | cons g gs =>
      simp only [mk_data]
      cases hfs : PatternKind.from_str pre with
      | ok kd => exact absurd hfs (hbad kd)
      | error e => rfl

/-- Witness for C2 at concrete inputs. -/
theorem split_pattern_spec_witness :
    split_pattern "glob:x" PatternKind.RE = (PatternKind.Glob, "x") ∧
    split_pattern "a.*py" PatternKind.RE = (PatternKind.RE, "a.*py") :=
  ⟨split_pattern_spec.1 "glob:x" PatternKind.Glob "x" PatternKind.RE
      (by decide),
   split_pattern_spec.2.1 "a.*py" PatternKind.RE (by decide)⟩

/-- C4: for every input whose resolved kind is `Set`, `normalize_patterns`
fails with an `UnsupportedPatternKind` error rather than emitting a pattern,
for any filesystem, root, cwd, default kind, fuel, trailing input and
`force_recursive_glob` value. -/
theorem normalize_patterns_set_unsupported :
    ∀ (fs : String → Option String) (root cwd : String)
      (default_kind : PatternKind) (fuel : Nat) (force : Bool)
      (s pat : String) (more : List String),
      split_pattern s default_kind = (PatternKind.Set, pat) →
      normalize_patterns fs root cwd default_kind (fuel + 1) (s :: more) force =
        Except.error (Error.UnsupportedPatternKind "set") := by
  intro fs root cwd default_kind fuel force s pat more h
  simp only [normalize_patterns, exceptConcatMap, h, processCandidate,
    normalizeCandidate]
  rfl

/-- Witness for C4 at the spec's example `set:added()`. -/
theorem normalize_patterns_set_unsupported_witness :
    normalize_patterns (fun _ => none) "/root" "/root/cwd" PatternKind.Glob 1
        ["set:added()"] false =
      Except.error (Error.UnsupportedPatternKind "set") :=
  normalize_patterns_set_unsupported (fun _ => none) "/root" "/root/cwd"
    PatternKind.Glob 0 false "set:added()" "added()" [] (by decide)

/-- C6: for every regex-kind pattern (`RE` or `RelRE`), a leading caret is
stripped and no prefix is added; without a leading caret a free (`RelRE`)
pattern is prefixed with `.*?` while an `RE` pattern is left unchanged; in
particular `relre:a.*\.py` normalizes to `.*?a.*\.py` and
`relre:^foo(bar|baz)` normalizes to `foo(bar|baz)`. -/
theorem normalize_regex_anchoring :
    (∀ (kind : PatternKind) (pat root cwd : String) (force : Bool)
       (rest : List Char), kind.is_regex = true → pat.data = '^' :: rest →
      normalizeCandidate kind pat root cwd force = Except.ok (String.mk rest)) ∧
    (∀ (pat root cwd : String) (force : Bool),
      pat.data.head? ≠ some '^' →
      normalizeCandidate PatternKind.RelRE pat root cwd force =
        Except.ok (".*?" ++ pat)) ∧
    (∀ (pat root cwd : String) (force : Bool),
      pat.data.head? ≠ some '^' →
      normalizeCandidate PatternKind.RE pat root cwd force = Except.ok pat) ∧
    normalize_patterns (fun _ => none) "/root" "/root/cwd" PatternKind.Glob 1
        ["relre:a.*\\.py"] false =
      Except.ok [Pattern.new PatternKind.RelRE ".*?a.*\\.py"] ∧
    normalize_patterns (fun _ => none) "/root" "/root/cwd" PatternKind.Glob 1
        ["relre:^foo(bar|baz)"] false =
      Except.ok [Pattern.new PatternKind.RelRE "foo(bar|baz)"] := by
  refine ⟨?_, ?_, ?_, by rfl, by rfl⟩
  · intro kind pat root cwd force rest h1 h2
    cases kind <;> simp at h1 <;> simp [normalizeCandidate, h2]
  · intro pat root cwd force h
    cases hd : pat.data with
    | nil => simp [normalizeCandidate, hd]
    | cons c rest =>
      have hc : ¬ c = '^' := fun hce => h (by simp [hd, hce])
      simp [normalizeCandidate, hd, hc]
  · intro pat root cwd force h
    cases hd : pat.data with
    | nil => simp [normalizeCandidate, hd]
    | cons c rest =>
      have hc : ¬ c = '^' := fun hce => h (by simp [hd, hce])
      simp [normalizeCandidate, hd, hc]

/-- Witness for C6 at concrete inputs. -/
theorem normalize_regex_anchoring_witness :
    normalizeCandidate PatternKind.RelRE "^ab" "" "" false =
      Except.ok (String.mk ['a', 'b']) ∧
    normalizeCandidate PatternKind.RelRE "ab" "" "" false =
      Except.ok (".*?" ++ "ab") ∧
    normalizeCandidate PatternKind.RE "ab" "" "" false = Except.ok "ab" :=
  ⟨normalize_regex_anchoring.1 PatternKind.RelRE "^ab" "" "" false ['a', 'b']
      (by decide) (by decide),
   normalize_regex_anchoring.2.1 "ab" "" "" false (by decide),
   normalize_regex_anchoring.2.2.1 "ab" "" "" false (by decide)⟩

/-- C7: for every `RootFilesIn` pattern, after path cleanup and
glob-metacharacter escaping an empty pattern is rewritten to `*` and a
non-empty pattern `q` to `q/*` (never a recursive `/**` suffix); in
particular `rootfilesin:foo*` normalizes to `foo\*/*`. -/
theorem rootfilesin_child_only :
    (∀ (pat root cwd : String) (force : Bool) (q : String),
      plain_to_glob
          (if normalize_path_pattern pat = "." then ""
           else normalize_path_pattern pat) = q →
      normalizeCandidate PatternKind.RootFilesIn pat root cwd force =
        Except.ok (if q = "" then "*" else q ++ "/*")) ∧
    normalize_patterns (fun _ => none) "/root" "/root/cwd" PatternKind.Glob 1
        ["rootfilesin:foo*"] false =
      Except.ok [Pattern.new PatternKind.RootFilesIn "foo\\*/*"] := by
  refine ⟨?_, by rfl⟩
  intro pat root cwd force q h
  simp [normalizeCandidate, h]

/-- Witness for C7 at concrete inputs. -/
theorem rootfilesin_child_only_witness :
    normalizeCandidate PatternKind.RootFilesIn "foo*" "" "" false =
      Except.ok (if ("foo\\*" : String) = "" then "*" else "foo\\*" ++ "/*") ∧
    normalizeCandidate PatternKind.RootFilesIn "" "" "" false =
      Except.ok (if ("" : String) = "" then "*" else "" ++ "/*") :=
  ⟨(rootfilesin_child_only.1 "foo*" "" "" false "foo\\*" (by decide)),
   (rootfilesin_child_only.1 "" "" "" false "" (by decide))⟩

/-- Processing a single input whose kind is not a glob runs the candidate
pipeline on exactly the split text, with no curly-bracket expansion. -/
theorem normalize_patterns_singleton_not_glob
    (fs : String → Option String) (root cwd : String)
    (default_kind : PatternKind) (fuel : Nat) (force : Bool)
    (s : String) (kind : PatternKind) (pat : String)
    (h1 : split_pattern s default_kind = (kind, pat))
    (h2 : kind.is_glob = false) :
    normalize_patterns fs root cwd default_kind (fuel + 1) [s] force =
      processCandidate
        (fun subs => normalize_patterns fs root cwd default_kind fuel subs false)
        fs root cwd kind pat force := by
  cases hg : processCandidate
      (fun subs => normalize_patterns fs root cwd default_kind fuel subs false)
      fs root cwd kind pat force with
  | error e =>
    simp only [normalize_patterns, exceptConcatMap, h1, h2,
      Bool.false_eq_true, if_false, hg]
  | ok ps =>
    simp only [normalize_patterns, exceptConcatMap, h1, h2,
      Bool.false_eq_true, if_false, hg, List.append_nil]

/-- C3: for every cwd-relative pattern (`RelPath` or `Glob` kind), if
root-relative resolution of a candidate against `(root, cwd)` reports that
the resolved path escapes the repository root, `normalize_patterns` fails
with `PathOutsideRoot(candidate, root)` — no result sequence is returned. -/
theorem normalize_patterns_path_outside_root :
    ∀ (fs : String → Option String) (root cwd : String)
      (default_kind : PatternKind) (fuel : Nat) (force : Bool)
      (s : String) (kind : PatternKind) (pat q : String) (qs : List String)
      (more : List String),
      split_pattern s default_kind = (kind, pat) →
      kind.is_cwd_relative = true →
      (if kind.is_glob then expand_curly_brackets pat else [pat]) = q :: qs →
      rootRelativePath root cwd q = none →
      normalize_patterns fs root cwd default_kind (fuel + 1) (s :: more) force =
        Except.error (Error.PathOutsideRoot q root) := by
  intro fs root cwd default_kind fuel force s kind pat q qs more h1 h2 h3 h4
  simp only [normalize_patterns, exceptConcatMap, h1]
  rw [h3]
  simp only [exceptConcatMap, processCandidate, normalizeCandidate, h2, h4,
    if_true]

/-- Witness for C3: `relpath:../../x` with root `/root` and cwd `/root/cwd`
resolves outside the root and is rejected. -/
theorem normalize_patterns_path_outside_root_witness :
    normalize_patterns (fun _ => none) "/root" "/root/cwd" PatternKind.Glob 1
        ["relpath:../../x"] false =
      Except.error (Error.PathOutsideRoot "../../x" "/root") :=
  normalize_patterns_path_outside_root (fun _ => none) "/root" "/root/cwd"
    PatternKind.Glob 0 false "relpath:../../x" PatternKind.RelPath "../../x"
    "../../x" [] [] (by decide) (by decide) (by decide) (by decide)

/-- For glob kinds the candidate loop emits one terminal pattern per
successfully normalized candidate. -/
theorem processCandidate_glob
    (recurse : List String → Except Error (List Pattern))
    (fs : String → Option String) (root cwd : String) (kind : PatternKind)
    (q : String) (force : Bool) (h : kind.is_glob = true) :
    processCandidate recurse fs root cwd kind q force =
      match normalizeCandidate kind q root cwd force with
      | Except.error e => Except.error e
      | Except.ok t => Except.ok [Pattern.new kind t] := by
  cases hn : normalizeCandidate kind q root cwd force with
  | error e => simp only [processCandidate, hn]
  | ok t => simp only [processCandidate, hn, h, Bool.true_or, if_true]

/-- Folding the candidate loop of a glob kind over a list of candidates that
all normalize successfully emits the normalized texts in order. -/
theorem exceptConcatMap_glob
    (recurse : List String → Except Error (List Pattern))
    (fs : String → Option String) (root cwd : String) (kind : PatternKind)
    (force : Bool) (h : kind.is_glob = true) :
    ∀ {l : List String} {ts : List String},
      List.Forall₂
        (fun q t => normalizeCandidate kind q root cwd force = Except.ok t)
        l ts →
      exceptConcatMap
          (fun p => processCandidate recurse fs root cwd kind p force) l =
        Except.ok (ts.map (Pattern.new kind)) := by
  intro l ts hall
  induction hall with
  | nil => rfl
  | cons hqt hrest ih =>
    simp only [exceptConcatMap]
    rw [processCandidate_glob _ _ _ _ _ _ _ h, hqt, ih]
    simp

/-- C5: for every glob-kind pattern, curly-bracket expansion runs before any
other normalization stage and yields one candidate per alternative, each
normalized independently with results emitted in expansion order; for every
non-glob kind the pattern is processed as a singleton with no expansion; and
with root `/root` and cwd `/root/cwd` the input `glob:../a` followed by the
group `b,c` and `d` normalizes to `abd` then `acd`. -/
theorem normalize_patterns_curly_expansion :
    (∀ (fs : String → Option String) (root cwd : String)
       (default_kind : PatternKind) (fuel : Nat) (force : Bool)
       (s : String) (kind : PatternKind) (pat : String) (ts : List String),
      split_pattern s default_kind = (kind, pat) →
      kind.is_glob = true →
      List.Forall₂
        (fun q t => normalizeCandidate kind q root cwd force = Except.ok t)
        (expand_curly_brackets pat) ts →
      normalize_patterns fs root cwd default_kind (fuel + 1) [s] force =
        Except.ok (ts.map (Pattern.new kind))) ∧
    (∀ (fs : String → Option String) (root cwd : String)
       (default_kind : PatternKind) (fuel : Nat) (force : Bool)
       (s : String) (kind : PatternKind) (pat : String),
      split_pattern s default_kind = (kind, pat) →
      kind.is_glob = false →
      normalize_patterns fs root cwd default_kind (fuel + 1) [s] force =
        processCandidate
          (fun subs =>
            normalize_patterns fs root cwd default_kind fuel subs false)
          fs root cwd kind pat force) ∧
    normalize_patterns (fun _ => none) "/root" "/root/cwd" PatternKind.Glob 1
        ["glob:../a\x7bb,c\x7dd"] false =
      Except.ok [Pattern.new PatternKind.Glob "abd",
        Pattern.new PatternKind.Glob "acd"] := by
  refine ⟨?_, normalize_patterns_singleton_not_glob, by rfl⟩
  intro fs root cwd default_kind fuel force s kind pat ts h1 h2 hall
  simp only [normalize_patterns, exceptConcatMap, h1, h2, if_true,
    exceptConcatMap_glob _ _ _ _ _ _ h2 hall, List.append_nil]

/-- Witness for C5 at concrete inputs. -/
theorem normalize_patterns_curly_expansion_witness :
    normalize_patterns (fun _ => none) "/root" "/root/cwd" PatternKind.Glob 1
        ["glob:a"] false =
      Except.ok (["cwd/a"].map (Pattern.new PatternKind.Glob)) ∧
    normalize_patterns (fun _ => none) "/root" "/root/cwd" PatternKind.Glob 1
        ["re:x"] false =
      processCandidate
        (fun subs =>
          normalize_patterns (fun _ => none) "/root" "/root/cwd"
            PatternKind.Glob 0 subs false)
        (fun _ => none) "/root" "/root/cwd" PatternKind.RE "x" false :=
  ⟨normalize_patterns_curly_expansion.1 (fun _ => none) "/root" "/root/cwd"
      PatternKind.Glob 0 false "glob:a" PatternKind.Glob "a" ["cwd/a"]
      (by decide) (by decide)
      (List.Forall₂.cons (by decide) List.Forall₂.nil),
   normalize_patterns_curly_expansion.2.1 (fun _ => none) "/root" "/root/cwd"
      PatternKind.Glob 0 false "re:x" PatternKind.RE "x" (by decide)
      (by decide)⟩

/-- A two-level nested listfile filesystem: `f1` lists `f2`, `f2` holds a
regex pattern. -/
def fsNested : String → Option String := fun p =>
  if p = "f1" then some "listfile:f2"
  else if p = "f2" then some "re:x" else none

/-- Every pattern returned by the listfile branch of the candidate loop
carries the listfile's own path as source, overwriting whatever source the
recursive call produced. -/
theorem processCandidate_listfile_source
    (recurse : List String → Except Error (List Pattern))
    (fs : String → Option String) (root cwd : String) (kind : PatternKind)
    (pat : String) (force : Bool) (res : List Pattern)
    (hk : kind = PatternKind.ListFile ∨ kind = PatternKind.ListFile0)
    (h : processCandidate recurse fs root cwd kind pat force = Except.ok res) :
    ∀ p ∈ res, p.source = some pat := by
  have hnc : normalizeCandidate kind pat root cwd force = Except.ok pat := by
    rcases hk with rfl | rfl <;> simp [normalizeCandidate]
  have hterm : (kind.is_glob || kind.is_path || kind.is_regex) = false := by
    rcases hk with rfl | rfl <;> rfl
  simp only [processCandidate] at h
  rw [hnc] at h
  simp only [hterm, Bool.false_eq_true, if_false] at h
  rw [if_pos hk] at h
  cases hf : fs pat with
  | none => simp [read_to_string, hf] at h
  | some contents =>
    simp only [read_to_string, hf] at h
    cases hrec : recurse
        (if kind = PatternKind.ListFile then linesOf contents
         else splitNull contents) with
    | error e => simp [hrec] at h
    | ok ps =>
      simp only [hrec, Except.ok.injEq] at h
      subst h
      intro p hp
      obtain ⟨q, _, rfl⟩ := List.mem_map.mp hp
      rfl

/-- C1 (amended): every `Pattern` produced by expanding a `ListFile` or
`ListFile0` pattern has its source field set to the listfile's path,
overwriting any prior source; consequently, when listfiles are nested the
resulting entities carry the OUTERMOST listfile's path, since each enclosing
listfile overwrites the source of the patterns its recursive expansion
returned. -/
theorem listfile_source_outermost :
    ∀ (fs : String → Option String) (root cwd : String)
      (default_kind : PatternKind) (fuel : Nat) (force : Bool)
      (s : String) (kind : PatternKind) (pat : String) (res : List Pattern),
      split_pattern s default_kind = (kind, pat) →
      (kind = PatternKind.ListFile ∨ kind = PatternKind.ListFile0) →
      normalize_patterns fs root cwd default_kind (fuel + 1) [s] force =
        Except.ok res →
      ∀ p ∈ res, p.source = some pat := by
  intro fs root cwd default_kind fuel force s kind pat res h1 hk h3
  rw [normalize_patterns_singleton_not_glob fs root cwd default_kind fuel
    force s kind pat h1 (by rcases hk with rfl | rfl <;> rfl)] at h3
  exact processCandidate_listfile_source _ fs root cwd kind pat force res hk h3

/-- Witness for C1 (amended): a listfile whose line lists another listfile;
the emitted pattern carries the outer listfile's path. -/
theorem listfile_source_outermost_witness :
    (⟨PatternKind.RE, "x", some "f1"⟩ : Pattern).source = some "f1" :=
  listfile_source_outermost fsNested "/r" "/r" PatternKind.Glob 2 false
    "listfile:f1" PatternKind.ListFile "f1"
    [⟨PatternKind.RE, "x", some "f1"⟩] (by decide) (Or.inl rfl) (by decide)
    ⟨PatternKind.RE, "x", some "f1"⟩ (by decide)

/-- Counterexample to C1 as stated: with nested listfiles (`f1` lists `f2`,
`f2` holds `re:x`) the produced entity's source is the outermost path `f1`,
not the innermost path `f2` that the claim requires. -/
theorem nested_listfile_source_not_innermost :
    normalize_patterns fsNested "/r" "/r" PatternKind.Glob 3 ["listfile:f1"]
        false =
      Except.ok [⟨PatternKind.RE, "x", some "f1"⟩] ∧
    ¬ (normalize_patterns fsNested "/r" "/r" PatternKind.Glob 3
          ["listfile:f1"] false =
        Except.ok [⟨PatternKind.RE, "x", some "f2"⟩]) := by
  exact ⟨by decide, by decide⟩

/-- Members of a successful `exceptConcatMap` come from a successful
application of the folded function to some list element. -/
theorem exceptConcatMap_ok_mem {α : Type}
    {f : α → Except Error (List Pattern)} :
    ∀ {xs : List α} {ps : List Pattern},
      exceptConcatMap f xs = Except.ok ps →
      ∀ p ∈ ps, ∃ x ∈ xs, ∃ qs, f x = Except.ok qs ∧ p ∈ qs := by
  intro xs
  induction xs with
  | nil =>
    intro ps h p hp
    simp only [exceptConcatMap, Except.ok.injEq] at h
    subst h
    exact absurd hp (List.not_mem_nil p)
  | cons x xs ih =>
    intro ps h p hp
    simp only [exceptConcatMap] at h
    cases hf : f x with
    | error e => rw [hf] at h; simp at h
    | ok qs =>
      rw [hf] at h
      cases hrest : exceptConcatMap f xs with
      | error e => rw [hrest] at h; simp at h
      | ok rs =>
        rw [hrest] at h
        simp only [Except.ok.injEq] at h
        subst h
        rcases List.mem_append.mp hp with hq | hr
        · exact ⟨x, List.mem_cons_self x xs, qs, hf, hq⟩
        · obtain ⟨y, hy, qs', hfy, hpy⟩ := ih hrest p hr
          exact ⟨y, List.mem_cons_of_mem x hy, qs', hfy, hpy⟩

/-- Every pattern emitted by the candidate loop has a terminal kind, as long
as the recursive continuation only returns terminal kinds. -/
theorem processCandidate_terminal
    (recurse : List String → Except Error (List Pattern))
    (fs : String → Option String) (root cwd : String) (kind : PatternKind)
    (q : String) (force : Bool) (qs : List Pattern)
    (hrec : ∀ subs rs, recurse subs = Except.ok rs →
      ∀ r ∈ rs, (r.kind.is_glob || r.kind.is_path || r.kind.is_regex) = true)
    (h : processCandidate recurse fs root cwd kind q force = Except.ok qs) :
    ∀ p ∈ qs, (p.kind.is_glob || p.kind.is_path || p.kind.is_regex) = true := by
  simp only [processCandidate] at h
  cases hn : normalizeCandidate kind q root cwd force with
  | error e => rw [hn] at h; simp at h
  | ok pat =>
    simp only [hn] at h
    by_cases hterm : (kind.is_glob || kind.is_path || kind.is_regex) = true
    · rw [if_pos hterm] at h
      simp only [Except.ok.injEq] at h
      subst h
      intro p hp
      simp only [List.mem_singleton] at hp
      subst hp
      exact hterm
    · rw [if_neg hterm] at h
      by_cases hlf : kind = PatternKind.ListFile ∨ kind = PatternKind.ListFile0
      · rw [if_pos hlf] at h
        cases hf : fs pat with
        | none => simp [read_to_string, hf] at h
        | some contents =>
          simp only [read_to_string, hf] at h
          cases hrec2 : recurse
              (if kind = PatternKind.ListFile then linesOf contents
               else splitNull contents) with
          | error e => simp [hrec2] at h
          | ok rs =>
            simp only [hrec2, Except.ok.injEq] at h
            subst h
            intro p hp
            obtain ⟨r, hr, rfl⟩ := List.mem_map.mp hp
            exact hrec _ _ hrec2 r hr
      · rw [if_neg hlf] at h
        simp at h

/-- At every fuel and nesting depth, a successful `normalize_patterns` run
emits only terminal (glob, path or regex) kinds. -/
theorem normalize_patterns_terminal_aux :
    ∀ (fuel : Nat) (fs : String → Option String) (root cwd : String)
      (default_kind : PatternKind) (pats : List String) (force : Bool)
      (res : List Pattern),
      normalize_patterns fs root cwd default_kind fuel pats force =
        Except.ok res →
      ∀ p ∈ res,
        (p.kind.is_glob || p.kind.is_path || p.kind.is_regex) = true := by
  intro fuel
  induction fuel with
  | zero =>
    intro fs root cwd default_kind pats force res h
    simp [normalize_patterns] at h
  | succ fuel ih =>
    intro fs root cwd default_kind pats force res h p hp
    simp only [normalize_patterns] at h
    obtain ⟨s, hs, qs0, hF, hp0⟩ := exceptConcatMap_ok_mem h p hp
    obtain ⟨q, hq, qs1, hG, hp1⟩ := exceptConcatMap_ok_mem hF p hp0
    exact processCandidate_terminal _ fs root cwd _ q force qs1
      (fun subs rs hr r hrm => ih fs root cwd default_kind subs false rs hr r hrm)
      hG p hp1

/-- C10: every `Pattern` in a successful result of `normalize_patterns` has a
kind satisfying `is_glob`, `is_path` or `is_regex`; a pattern of kind
`ListFile`, `ListFile0` or `Set` never appears in the output, at any listfile
nesting depth (any fuel). -/
theorem normalize_patterns_terminal_kinds :
    ∀ (fuel : Nat) (fs : String → Option String) (root cwd : String)
      (default_kind : PatternKind) (pats : List String) (force : Bool)
      (res : List Pattern) (p : Pattern),
      normalize_patterns fs root cwd default_kind fuel pats force =
        Except.ok res →
      p ∈ res →
      (p.kind.is_glob || p.kind.is_path || p.kind.is_regex) = true ∧
        p.kind ≠ PatternKind.ListFile ∧ p.kind ≠ PatternKind.ListFile0 ∧
        p.kind ≠ PatternKind.Set := by
  intro fuel fs root cwd default_kind pats force res p h hp
  have hterm := normalize_patterns_terminal_aux fuel fs root cwd default_kind
    pats force res h p hp
  refine ⟨hterm, ?_, ?_, ?_⟩ <;> intro hk <;> rw [hk] at hterm <;>
    simp at hterm

/-- Witness for C10 at a concrete run. -/
theorem normalize_patterns_terminal_kinds_witness :
    ((⟨PatternKind.RE, "x", none⟩ : Pattern).kind.is_glob ||
        (⟨PatternKind.RE, "x", none⟩ : Pattern).kind.is_path ||
        (⟨PatternKind.RE, "x", none⟩ : Pattern).kind.is_regex) = true ∧
      (⟨PatternKind.RE, "x", none⟩ : Pattern).kind ≠ PatternKind.ListFile ∧
      (⟨PatternKind.RE, "x", none⟩ : Pattern).kind ≠ PatternKind.ListFile0 ∧
      (⟨PatternKind.RE, "x", none⟩ : Pattern).kind ≠ PatternKind.Set :=
  normalize_patterns_terminal_kinds 1 (fun _ => none) "/root" "/root/cwd"
    PatternKind.Glob ["re:x"] false [⟨PatternKind.RE, "x", none⟩]
    ⟨PatternKind.RE, "x", none⟩ (by decide) (by decide)

end Pathmatcher
